import Mathlib

/-!
Shallow embedding of `transfer3_fp_freesolv.py` (Constructive-Transfer-Learning):
molecular featurization (`DataSet`), the graph-convolution model (`Transfer`),
CSV loading (`load_data`) and the adaptive learning-rate schedule (`reduce_lr`).
Python floats are modelled as rationals; the external RDKit toolkit's molecule
parsing is an abstract parameter; molecules carry the data the script reads
from RDKit (atoms, adjacency matrix).
-/

/-- Values appearing in the heterogeneous Python `allowable_set` lists of
`one_of_k_encoding`: integers or strings (the `'ELSE'` catch-all marker). -/
inductive PyVal where
  | int : Int → PyVal
  | str : String → PyVal
deriving DecidableEq, Repr

/-- The data of an RDKit atom that `get_atom_feature` reads:
`GetSymbol`, `GetFormalCharge`, `GetTotalNumHs`, `GetIsAromatic`. -/
structure Atom where
  symbol : String
  formalCharge : Int
  totalNumHs : Nat
  isAromatic : Bool
deriving DecidableEq, Repr, Inhabited

/-- Embedding of `DataSet.one_of_k_encoding`: if `x` is not in the allowable
set it is replaced by the set's last element, then the list `[x == s for s in
allowable_set]` is returned. -/
def one_of_k_encoding {α : Type} [DecidableEq α] (x : α) (allowable_set : List α) :
    List Bool :=
  let y := if x ∈ allowable_set then x else allowable_set.getLastD x
  allowable_set.map (fun s => decide (y = s))

/-- Embedding of `DataSet.get_atom_feature`: concatenation of the element
one-hot over `['C','N','O','F','ELSE']`, the formal-charge one-hot over
`[-1,0,1,'ELSE']`, the hydrogen-count one-hot over `[0,1,2,3,4,'ELSE']`,
and the aromaticity flag. -/
def get_atom_feature (a : Atom) : List Bool :=
  one_of_k_encoding a.symbol ["C", "N", "O", "F", "ELSE"]
    ++ one_of_k_encoding (PyVal.int a.formalCharge)
        [PyVal.int (-1), PyVal.int 0, PyVal.int 1, PyVal.str "ELSE"]
    ++ one_of_k_encoding (PyVal.int (a.totalNumHs : Int))
        [PyVal.int 0, PyVal.int 1, PyVal.int 2, PyVal.int 3, PyVal.int 4, PyVal.str "ELSE"]
    ++ [a.isAromatic]

theorem one_of_k_length {α : Type} [DecidableEq α] (x : α) (l : List α) :
    (one_of_k_encoding x l).length = l.length := by
  simp [one_of_k_encoding]

theorem count_true_map_decide {α : Type} [DecidableEq α] (y : α) (l : List α) :
    (l.map (fun s => decide (y = s))).count true = l.count y := by
  induction l with
  | nil => rfl
  | cons a l ih =>
    simp only [List.map_cons, List.count_cons, ih]
    by_cases h : y = a
    · subst h
      simp
    · have h' : ¬a = y := fun e => h e.symm
      simp [h, h']

theorem getLastD_mem {α : Type} (l : List α) (x : α) (h : l ≠ []) :
    l.getLastD x ∈ l := by
  induction l generalizing x with
  | nil => exact absurd rfl h
  | cons a t ih =>
    rw [List.getLastD_cons]
    cases t with
    | nil => simp [List.getLastD]
    | cons b u => exact List.mem_cons_of_mem a (ih a (by simp))

theorem one_of_k_replaced_mem {α : Type} [DecidableEq α] (x : α) (l : List α)
    (hne : l ≠ []) : (if x ∈ l then x else l.getLastD x) ∈ l := by
  by_cases h : x ∈ l
  · simp [h]
  · simp only [h, if_false]
    exact getLastD_mem l x hne

theorem one_of_k_count_one {α : Type} [DecidableEq α] (x : α) (l : List α)
    (hne : l ≠ []) (hnd : l.Nodup) : (one_of_k_encoding x l).count true = 1 := by
  unfold one_of_k_encoding
  rw [count_true_map_decide]
  exact List.count_eq_one_of_mem hnd (one_of_k_replaced_mem x l hne)

/-- C2: every atom's feature vector is 16-dimensional: element one-hot (5)
then formal-charge one-hot (4) then hydrogen-count one-hot (6) then the
aromaticity flag; each one-hot segment has exactly one true entry, and a
value outside a segment's allowable values lands in its final catch-all
bucket. -/
theorem get_atom_feature_spec (a : Atom) :
    (get_atom_feature a).length = 16
    ∧ ((get_atom_feature a).take 5).count true = 1
    ∧ (((get_atom_feature a).drop 5).take 4).count true = 1
    ∧ (((get_atom_feature a).drop 9).take 6).count true = 1
    ∧ (get_atom_feature a).drop 15 = [a.isAromatic]
    ∧ (a.symbol ∉ (["C", "N", "O", "F"] : List String) →
        ((get_atom_feature a).take 5).getD 4 false = true)
    ∧ (a.formalCharge ∉ ([-1, 0, 1] : List Int) →
        (((get_atom_feature a).drop 5).take 4).getD 3 false = true)
    ∧ ((a.totalNumHs : Int) ∉ ([0, 1, 2, 3, 4] : List Int) →
        (((get_atom_feature a).drop 9).take 6).getD 5 false = true) := by
  have hsym : (one_of_k_encoding a.symbol ["C", "N", "O", "F", "ELSE"]).length = 5 := by
    simp [one_of_k_encoding]
  have hchg : (one_of_k_encoding (PyVal.int a.formalCharge)
      [PyVal.int (-1), PyVal.int 0, PyVal.int 1, PyVal.str "ELSE"]).length = 4 := by
    simp [one_of_k_encoding]
  have hhyd : (one_of_k_encoding (PyVal.int (a.totalNumHs : Int))
      [PyVal.int 0, PyVal.int 1, PyVal.int 2, PyVal.int 3, PyVal.int 4,
        PyVal.str "ELSE"]).length = 6 := by
    simp [one_of_k_encoding]
  have htake5 : (get_atom_feature a).take 5
      = one_of_k_encoding a.symbol ["C", "N", "O", "F", "ELSE"] := by
    unfold get_atom_feature
    rw [List.append_assoc, List.append_assoc, List.take_left' hsym]
  have hdrop5 : (get_atom_feature a).drop 5
      = one_of_k_encoding (PyVal.int a.formalCharge)
          [PyVal.int (-1), PyVal.int 0, PyVal.int 1, PyVal.str "ELSE"]
        ++ (one_of_k_encoding (PyVal.int (a.totalNumHs : Int))
            [PyVal.int 0, PyVal.int 1, PyVal.int 2, PyVal.int 3, PyVal.int 4, PyVal.str "ELSE"]
          ++ [a.isAromatic]) := by
    unfold get_atom_feature
    rw [List.append_assoc, List.append_assoc, List.drop_left' hsym]
  have htake4 : ((get_atom_feature a).drop 5).take 4
      = one_of_k_encoding (PyVal.int a.formalCharge)
          [PyVal.int (-1), PyVal.int 0, PyVal.int 1, PyVal.str "ELSE"] := by
    rw [hdrop5, List.take_left' hchg]
  have hdrop9 : (get_atom_feature a).drop 9
      = one_of_k_encoding (PyVal.int (a.totalNumHs : Int))
          [PyVal.int 0, PyVal.int 1, PyVal.int 2, PyVal.int 3, PyVal.int 4, PyVal.str "ELSE"]
        ++ [a.isAromatic] := by
    have h9 : (get_atom_feature a).drop 9 = ((get_atom_feature a).drop 5).drop 4 := by
      rw [List.drop_drop]
    rw [h9, hdrop5, List.drop_left' hchg]
  have htake6 : ((get_atom_feature a).drop 9).take 6
      = one_of_k_encoding (PyVal.int (a.totalNumHs : Int))
          [PyVal.int 0, PyVal.int 1, PyVal.int 2, PyVal.int 3, PyVal.int 4, PyVal.str "ELSE"] := by
    rw [hdrop9, List.take_left' hhyd]
  have hdrop15 : (get_atom_feature a).drop 15 = [a.isAromatic] := by
    have h15 : (get_atom_feature a).drop 15 = ((get_atom_feature a).drop 9).drop 6 := by
      rw [List.drop_drop]
    rw [h15, hdrop9, List.drop_left' hhyd]
  refine ⟨?_, ?_, ?_, ?_, hdrop15, ?_, ?_, ?_⟩
  · unfold get_atom_feature
    simp [one_of_k_encoding]
  · rw [htake5]
    exact one_of_k_count_one _ _ (by simp) (by decide)
  · rw [htake4]
    exact one_of_k_count_one _ _ (by simp) (by decide)
  · rw [htake6]
    exact one_of_k_count_one _ _ (by simp) (by decide)
  · intro hout
    rw [htake5]
    unfold one_of_k_encoding
    by_cases hm : a.symbol ∈ (["C", "N", "O", "F", "ELSE"] : List String)
    · have : a.symbol = "ELSE" := by
        rcases (by simpa using hm) with h | h | h | h | h <;> simp_all
      rw [if_pos hm, this]
      rfl
    · rw [if_neg hm]
      rfl
  · intro hout
    rw [htake4]
    unfold one_of_k_encoding
    by_cases hm : PyVal.int a.formalCharge
        ∈ ([PyVal.int (-1), PyVal.int 0, PyVal.int 1, PyVal.str "ELSE"] : List PyVal)
    · exfalso
      rcases (by simpa using hm) with h | h | h <;> simp_all
    · rw [if_neg hm]
      rfl
  · intro hout
    rw [htake6]
    unfold one_of_k_encoding
    by_cases hm : PyVal.int (a.totalNumHs : Int)
        ∈ ([PyVal.int 0, PyVal.int 1, PyVal.int 2, PyVal.int 3, PyVal.int 4,
            PyVal.str "ELSE"] : List PyVal)
    · exfalso
      rcases (by simpa using hm) with h | h | h | h | h <;> simp_all
    · rw [if_neg hm]
      rfl

/-- Witness for `get_atom_feature_spec` at a sulfur atom with formal charge 2
and 7 hydrogens, discharging the three out-of-vocabulary hypotheses. -/
theorem get_atom_feature_spec_witness :
    ((get_atom_feature ⟨"S", 2, 7, false⟩).take 5).getD 4 false = true
    ∧ (((get_atom_feature ⟨"S", 2, 7, false⟩).drop 5).take 4).getD 3 false = true
    ∧ (((get_atom_feature ⟨"S", 2, 7, false⟩).drop 9).take 6).getD 5 false = true
    ∧ (get_atom_feature ⟨"S", 2, 7, false⟩).length = 16 :=
  ⟨(get_atom_feature_spec ⟨"S", 2, 7, false⟩).2.2.2.2.2.1 (by decide),
   (get_atom_feature_spec ⟨"S", 2, 7, false⟩).2.2.2.2.2.2.1 (by decide),
   (get_atom_feature_spec ⟨"S", 2, 7, false⟩).2.2.2.2.2.2.2 (by decide),
   (get_atom_feature_spec ⟨"S", 2, 7, false⟩).1⟩

/-- Average of the four absolute loss changes preceding the current one:
the value `dif` computed by the `for i in range(1,5)` loop of `reduce_lr`,
divided by 4. -/
def recent_avg_dif (loss_list : List ℚ) (epoch : Nat) : ℚ :=
  (((List.range' 1 4).map (fun i =>
    |loss_list.getD (epoch - i) 0 - loss_list.getD (epoch - i - 1) 0|)).sum) / 4

/-- The `result` flag computed by the two `if` statements of `reduce_lr`:
starts `False`, set by the non-improvement test (when `epoch != 0`) and by
the sharp-deviation test (when `epoch >= 5`). -/
def reduce_lr_result (loss_list : List ℚ) (epoch : Nat) : Bool :=
  let result := false
  let result := if epoch ≠ 0 then
      (if loss_list.getD (epoch - 1) 0 ≤ loss_list.getD epoch 0 then true else result)
    else result
  let result := if 5 ≤ epoch then
      (if recent_avg_dif loss_list epoch * 3
          < |loss_list.getD epoch 0 - loss_list.getD (epoch - 1) 0| then true else result)
    else result
  result

/-- Embedding of `reduce_lr`. Losses and the learning rate are rationals; the
optimizer is the list of its param groups' learning rates; list indexing out
of range defaults to 0 (the script always calls with `epoch <
len(loss_list)`). Returns the new learning rate and the updated optimizer. -/
def reduce_lr (loss_list : List ℚ) (epoch : Nat) (lr : ℚ) (optimizer : List ℚ) :
    ℚ × List ℚ :=
  if reduce_lr_result loss_list epoch then
    (lr * (19 / 20), optimizer.map (fun _ => lr * (19 / 20)))
  else (lr, optimizer)

/-- The decay condition as the spec states it: the current loss does not
improve on the previous one, or the current absolute change exceeds three
times the average of the four preceding absolute changes. -/
def reduce_lr_trigger (loss_list : List ℚ) (epoch : Nat) : Prop :=
  (epoch ≠ 0 ∧ loss_list.getD (epoch - 1) 0 ≤ loss_list.getD epoch 0)
  ∨ (5 ≤ epoch ∧ 3 * recent_avg_dif loss_list epoch
      < |loss_list.getD epoch 0 - loss_list.getD (epoch - 1) 0|)

/-- C1: with a loss history covering indices `0..epoch`, `reduce_lr` scales
the learning rate by 0.95 and writes the scaled rate into every optimizer
param group exactly when the trigger condition holds, and otherwise returns
`lr` with the optimizer untouched. -/
theorem reduce_lr_spec (loss_list : List ℚ) (epoch : Nat) (lr : ℚ)
    (optimizer : List ℚ) (h : epoch < loss_list.length) :
    (reduce_lr_trigger loss_list epoch →
      reduce_lr loss_list epoch lr optimizer
        = (lr * (19 / 20), optimizer.map (fun _ => lr * (19 / 20))))
    ∧ (¬ reduce_lr_trigger loss_list epoch →
      reduce_lr loss_list epoch lr optimizer = (lr, optimizer)) := by
  have hres : reduce_lr_result loss_list epoch = true ↔ reduce_lr_trigger loss_list epoch := by
    unfold reduce_lr_result reduce_lr_trigger
    by_cases h0 : epoch = 0
    · subst h0
      simp
    · by_cases hc1 : loss_list.getD (epoch - 1) 0 ≤ loss_list.getD epoch 0
      · by_cases h5 : 5 ≤ epoch <;>
          simp [h0, hc1, h5, mul_comm, or_comm]
      · by_cases h5 : 5 ≤ epoch
        · by_cases hc2 : recent_avg_dif loss_list epoch * 3
              < |loss_list.getD epoch 0 - loss_list.getD (epoch - 1) 0| <;>
            simp [h0, hc1, h5, hc2, mul_comm, or_comm]
        · simp [h0, hc1, h5]
  constructor
  · intro ht
    unfold reduce_lr
    rw [if_pos (hres.mpr ht)]
  · intro ht
    unfold reduce_lr
    rw [if_neg (fun hb => ht (hres.mp hb))]

/-- Witness for `reduce_lr_spec`: a sharp loss jump at epoch 5 triggers the
decay from 1 to 19/20 and rewrites the single param group. -/
theorem reduce_lr_spec_witness :
    (5 : Nat) < ([10, 9, 8, 7, 6, 100] : List ℚ).length
    ∧ reduce_lr [10, 9, 8, 7, 6, 100] 5 1 [1] = (19 / 20, [19 / 20]) := by
  refine ⟨by decide, ?_⟩
  have := (reduce_lr_spec [10, 9, 8, 7, 6, 100] 5 1 [1] (by decide)).1
    (Or.inl ⟨by decide, by norm_num⟩)
  simpa using this

/-- C9: the returned learning rate is either exactly `lr` or exactly
`0.95 * lr`, and for positive `lr` it never exceeds `lr`. -/
theorem reduce_lr_factor (loss_list : List ℚ) (epoch : Nat) (lr : ℚ)
    (optimizer : List ℚ) :
    ((reduce_lr loss_list epoch lr optimizer).1 = lr
      ∨ (reduce_lr loss_list epoch lr optimizer).1 = lr * (19 / 20))
    ∧ (0 < lr → (reduce_lr loss_list epoch lr optimizer).1 ≤ lr) := by
  unfold reduce_lr
  by_cases hb : reduce_lr_result loss_list epoch
  · rw [if_pos hb]
    exact ⟨Or.inr rfl, fun hpos => by dsimp only; linarith⟩
  · rw [if_neg hb]
    exact ⟨Or.inl rfl, fun hpos => le_refl lr⟩

/-- Witness for `reduce_lr_factor` at a one-entry loss history and `lr = 1`. -/
theorem reduce_lr_factor_witness :
    (0 : ℚ) < 1 ∧ (reduce_lr [1] 0 1 []).1 ≤ 1 :=
  ⟨by norm_num, (reduce_lr_factor [1] 0 1 []).2 (by norm_num)⟩

/-- The data of an RDKit molecule that `process_data` reads: its atom list
(`GetNumAtoms`, `GetAtomWithIdx`) and the entries of `GetAdjacencyMatrix`. -/
structure Molecule where
  atoms : List Atom
  adj : Nat → Nat → ℚ

/-- Embedding of `m.GetNumAtoms()`. -/
def Molecule.numAtoms (m : Molecule) : Nat := m.atoms.length

/-- Numpy stores the boolean feature entries into a float matrix as 0.0/1.0. -/
def boolToRat (b : Bool) : ℚ := if b then 1 else 0

/-- The `padded_feature` matrix that `process_data` builds for one molecule:
`np.zeros((max_num_atoms, 16))` whose first `num_atoms` rows are overwritten
with the stacked atom feature vectors. -/
def padded_feature (m : Molecule) (max_num_atoms : Nat) : List (List ℚ) :=
  (List.range max_num_atoms).map (fun i =>
    if i < m.numAtoms then (get_atom_feature (m.atoms.getD i default)).map boolToRat
    else (List.range 16).map (fun _ => 0))

/-- The `padded_adj` matrix that `process_data` builds for one molecule:
`np.zeros((max_num_atoms, max_num_atoms))` whose top-left `num_atoms ×
num_atoms` block is overwritten with `GetAdjacencyMatrix(m) + np.eye(num_atoms)`. -/
def padded_adj (m : Molecule) (max_num_atoms : Nat) : List (List ℚ) :=
  (List.range max_num_atoms).map (fun i =>
    (List.range max_num_atoms).map (fun j =>
      if i < m.numAtoms ∧ j < m.numAtoms then
        m.adj i j + (if i = j then 1 else 0)
      else 0))

/-- Entry of a matrix stored as a list of rows, defaulting to 0 outside. -/
def entry (rows : List (List ℚ)) (i j : Nat) : ℚ := (rows.getD i []).getD j 0

theorem getD_map_range {α : Type} (n : Nat) (f : Nat → α) (d : α) (i : Nat) :
    (((List.range n).map f).getD i d) = if i < n then f i else d := by
  by_cases h : i < n
  · simp [List.getD_eq_getElem?_getD, List.getElem?_map, List.getElem?_range, h]
  · have hnone : (List.range n)[i]? = none := by
      rw [List.getElem?_eq_none]
      simpa using Nat.le_of_not_lt h
    simp [List.getD_eq_getElem?_getD, List.getElem?_map, hnone, h]

theorem get_atom_feature_length (a : Atom) : (get_atom_feature a).length = 16 := by
  unfold get_atom_feature
  simp [one_of_k_encoding]

/-- C3: for a molecule with `num_atoms <= max_num_atoms`, the stored feature
matrix is `max_num_atoms × 16` with all rows past `num_atoms` zero, the
stored adjacency matrix is `max_num_atoms × max_num_atoms` with every row
and column of index `>= num_atoms` zero, its top-left block is the
molecule's adjacency plus the identity, and every real atom has diagonal
entry 1 (RDKit adjacency matrices have zero diagonal). -/
theorem process_data_padding (m : Molecule) (maxN : Nat)
    (hle : m.numAtoms ≤ maxN) (hdiag : ∀ i, m.adj i i = 0) :
    (padded_feature m maxN).length = maxN
    ∧ (∀ row ∈ padded_feature m maxN, row.length = 16)
    ∧ (∀ i j, m.numAtoms ≤ i → entry (padded_feature m maxN) i j = 0)
    ∧ (padded_adj m maxN).length = maxN
    ∧ (∀ row ∈ padded_adj m maxN, row.length = maxN)
    ∧ (∀ i j, m.numAtoms ≤ i ∨ m.numAtoms ≤ j → entry (padded_adj m maxN) i j = 0)
    ∧ (∀ i j, i < m.numAtoms → j < m.numAtoms →
        entry (padded_adj m maxN) i j = m.adj i j + (if i = j then 1 else 0))
    ∧ (∀ i, i < m.numAtoms → entry (padded_adj m maxN) i i = 1) := by
  refine ⟨?_, ?_, ?_, ?_, ?_, ?_, ?_, ?_⟩
  · simp [padded_feature]
  · intro row hrow
    rcases List.mem_map.mp hrow with ⟨i, _, hrow⟩
    subst hrow
    by_cases h : i < m.numAtoms
    · simp [h, get_atom_feature_length]
    · simp [h]
  · intro i j hge
    unfold entry padded_feature
    rw [getD_map_range]
    by_cases h : i < maxN
    · rw [if_pos h, if_neg (Nat.not_lt.mpr hge), getD_map_range]
      by_cases hj : j < 16 <;> simp [hj]
    · rw [if_neg h]
      simp
  · simp [padded_adj]
  · intro row hrow
    rcases List.mem_map.mp hrow with ⟨i, _, hrow⟩
    subst hrow
    simp
  · intro i j hge
    unfold entry padded_adj
    rw [getD_map_range]
    by_cases h : i < maxN
    · rw [if_pos h, getD_map_range]
      by_cases hj : j < maxN
      · rw [if_pos hj, if_neg]
        rintro ⟨hi', hj'⟩
        rcases hge with hg | hg
        · exact absurd hi' (Nat.not_lt.mpr hg)
        · exact absurd hj' (Nat.not_lt.mpr hg)
      · simp [hj]
    · rw [if_neg h]
      simp
  · intro i j hi hj
    unfold entry padded_adj
    rw [getD_map_range, if_pos (Nat.lt_of_lt_of_le hi hle), getD_map_range,
      if_pos (Nat.lt_of_lt_of_le hj hle), if_pos ⟨hi, hj⟩]
  · intro i hi
    unfold entry padded_adj
    rw [getD_map_range, if_pos (Nat.lt_of_lt_of_le hi hle), getD_map_range,
      if_pos (Nat.lt_of_lt_of_le hi hle), if_pos ⟨hi, hi⟩, hdiag i, if_pos rfl]
    norm_num

/-- Witness for `process_data_padding` at a single-carbon molecule padded to
size 2: the real atom gets a unit self-loop and the padding stays zero. -/
theorem process_data_padding_witness :
    entry (padded_adj ⟨[⟨"C", 0, 4, false⟩], fun _ _ => 0⟩ 2) 0 0 = 1
    ∧ entry (padded_adj ⟨[⟨"C", 0, 4, false⟩], fun _ _ => 0⟩ 2) 1 1 = 0
    ∧ entry (padded_feature ⟨[⟨"C", 0, 4, false⟩], fun _ _ => 0⟩ 2) 1 0 = 0 :=
  ⟨(process_data_padding ⟨[⟨"C", 0, 4, false⟩], fun _ _ => 0⟩ 2 (by decide)
      (fun i => rfl)).2.2.2.2.2.2.2 0 (by decide),
   (process_data_padding ⟨[⟨"C", 0, 4, false⟩], fun _ _ => 0⟩ 2 (by decide)
      (fun i => rfl)).2.2.2.2.2.1 1 1 (Or.inl (by decide)),
   (process_data_padding ⟨[⟨"C", 0, 4, false⟩], fun _ _ => 0⟩ 2 (by decide)
      (fun i => rfl)).2.2.1 1 0 (by decide)⟩

/-- Embedding of `DataSet.process_data` over an abstract RDKit parser
`MolFromSmiles`. A parse failure (calling `GetNumAtoms` on `None` raises
`AttributeError`) or a molecule with more than `max_num_atoms` atoms (the
numpy slice assignment raises a broadcast error) aborts the construction,
modelled as `none`; otherwise one feature matrix and one adjacency matrix
are appended per SMILES, in order. -/
def process_data (MolFromSmiles : String → Option Molecule)
    (smiles_list : List String) (max_num_atoms : Nat) :
    Option (List (List (List ℚ)) × List (List (List ℚ))) :=
  match smiles_list with
  | [] => some ([], [])
  | smiles :: rest =>
    match MolFromSmiles smiles with
    | none => none
    | some m =>
      if max_num_atoms < m.numAtoms then none
      else
        match process_data MolFromSmiles rest max_num_atoms with
        | none => none
        | some (fs, adjs) =>
            some (padded_feature m max_num_atoms :: fs,
                  padded_adj m max_num_atoms :: adjs)

/-- C10: `process_data` filters nothing: it succeeds exactly when every
SMILES parses to a molecule of at most `max_num_atoms` atoms, and on success
produces exactly one feature tensor and one adjacency tensor per input
SMILES; any violating input fails the whole construction. -/
theorem process_data_total (MolFromSmiles : String → Option Molecule)
    (l : List String) (maxN : Nat) :
    ((process_data MolFromSmiles l maxN).isSome ↔
      ∀ s ∈ l, ∃ m, MolFromSmiles s = some m ∧ m.numAtoms ≤ maxN)
    ∧ (∀ fs adjs, process_data MolFromSmiles l maxN = some (fs, adjs) →
        fs.length = l.length ∧ adjs.length = l.length) := by
  induction l with
  | nil =>
    constructor
    · simp [process_data]
    · intro fs adjs h
      simp [process_data] at h
      simp [h.1, h.2]
  | cons s rest ih =>
    constructor
    · constructor
      · intro hsome
        rcases hp : MolFromSmiles s with _ | m
        · simp [process_data, hp] at hsome
        · by_cases hn : maxN < m.numAtoms
          · simp [process_data, hp, hn] at hsome
          · rcases hr : process_data MolFromSmiles rest maxN with _ | p
            · simp [process_data, hp, hn, hr] at hsome
            · intro t ht
              rcases List.mem_cons.mp ht with h | h
              · exact h ▸ ⟨m, hp, Nat.le_of_not_lt hn⟩
              · exact (ih.1.mp (by rw [hr]; rfl)) t h
      · intro hall
        rcases hall s (List.mem_cons_self s rest) with ⟨m', hm', hle'⟩
        have hr := ih.1.mpr (fun t ht => hall t (List.mem_cons_of_mem s ht))
        rcases hrs : process_data MolFromSmiles rest maxN with _ | p
        · rw [hrs] at hr
          simp at hr
        · rcases p with ⟨fs, adjs⟩
          simp [process_data, hm', Nat.not_lt.mpr hle', hrs]
    · intro fs adjs h
      rcases hp : MolFromSmiles s with _ | m
      · simp [process_data, hp] at h
      · by_cases hn : maxN < m.numAtoms
        · simp [process_data, hp, hn] at h
        · rcases hr : process_data MolFromSmiles rest maxN with _ | p
          · simp [process_data, hp, hn, hr] at h
          · rcases p with ⟨fs', adjs'⟩
            simp only [process_data, hp, hn, hr, if_false, Option.some.injEq,
              Prod.mk.injEq] at h
            rcases ih.2 fs' adjs' hr with ⟨hl1, hl2⟩
            rcases h with ⟨h1, h2⟩
            rw [← h1, ← h2]
            simp [hl1, hl2]

/-- Witness for `process_data_total`: one parsable single-atom molecule
yields exactly one feature tensor and one adjacency tensor. -/
theorem process_data_total_witness :
    ([padded_feature ⟨[⟨"C", 0, 4, false⟩], fun _ _ => 0⟩ 2]).length
        = (["C"] : List String).length
    ∧ ([padded_adj ⟨[⟨"C", 0, 4, false⟩], fun _ _ => 0⟩ 2]).length
        = (["C"] : List String).length :=
  (process_data_total (fun _ => some ⟨[⟨"C", 0, 4, false⟩], fun _ _ => 0⟩) ["C"] 2).2
    [padded_feature ⟨[⟨"C", 0, 4, false⟩], fun _ _ => 0⟩ 2]
    [padded_adj ⟨[⟨"C", 0, 4, false⟩], fun _ _ => 0⟩ 2] rfl

theorem padded_feature_row (m : Molecule) (maxN k : Nat)
    (h1 : k < m.numAtoms) (h2 : m.numAtoms ≤ maxN) :
    (padded_feature m maxN).getD k []
      = (get_atom_feature (m.atoms.getD k default)).map boolToRat := by
  unfold padded_feature
  rw [getD_map_range, if_pos (Nat.lt_of_lt_of_le h1 h2), if_pos h1]

/-- C8: featurization is deterministic and local: the `i`-th stored feature
and adjacency tensors are functions of the `i`-th SMILES' molecule alone,
and each stored feature row is a function of its source atom alone. -/
theorem dataset_deterministic (MolFromSmiles : String → Option Molecule)
    (l : List String) (maxN : Nat) (fs adjs : List (List (List ℚ)))
    (h : process_data MolFromSmiles l maxN = some (fs, adjs))
    (i : Nat) (hi : i < l.length) :
    ∃ m, MolFromSmiles (l.getD i "") = some m
      ∧ fs.getD i [] = padded_feature m maxN
      ∧ adjs.getD i [] = padded_adj m maxN
      ∧ ∀ k, k < m.numAtoms →
          (padded_feature m maxN).getD k []
            = (get_atom_feature (m.atoms.getD k default)).map boolToRat := by
  induction l generalizing fs adjs i with
  | nil => exact absurd hi (by simp)
  | cons s rest ih =>
    rcases hp : MolFromSmiles s with _ | m
    · simp [process_data, hp] at h
    · by_cases hn : maxN < m.numAtoms
      · simp [process_data, hp, hn] at h
      · rcases hr : process_data MolFromSmiles rest maxN with _ | p
        · simp [process_data, hp, hn, hr] at h
        · rcases p with ⟨fs', adjs'⟩
          simp only [process_data, hp, hn, hr, if_false, Option.some.injEq,
            Prod.mk.injEq] at h
          rcases h with ⟨h1, h2⟩
          rw [← h1, ← h2]
          cases i with
          | zero =>
            refine ⟨m, hp, rfl, rfl, ?_⟩
            intro k hk
            exact padded_feature_row m maxN k hk (Nat.le_of_not_lt hn)
          | succ i =>
            have hi' : i < rest.length := Nat.lt_of_succ_lt_succ (by simpa using hi)
            simpa using ih fs' adjs' hr i hi'

/-- Witness for `dataset_deterministic` at a single-carbon molecule list. -/
theorem dataset_deterministic_witness :
    ∃ m, (fun (_ : String) => some (⟨[⟨"C", 0, 4, false⟩], fun _ _ => 0⟩ : Molecule)) "C"
          = some m
      ∧ ([padded_feature ⟨[⟨"C", 0, 4, false⟩], fun _ _ => 0⟩ 2]).getD 0 []
          = padded_feature m 2
      ∧ ([padded_adj ⟨[⟨"C", 0, 4, false⟩], fun _ _ => 0⟩ 2]).getD 0 []
          = padded_adj m 2
      ∧ ∀ k, k < m.numAtoms →
          (padded_feature m 2).getD k []
            = (get_atom_feature (m.atoms.getD k default)).map boolToRat := by
  have := dataset_deterministic
    (fun _ => some ⟨[⟨"C", 0, 4, false⟩], fun _ _ => 0⟩) ["C"] 2
    [padded_feature ⟨[⟨"C", 0, 4, false⟩], fun _ _ => 0⟩ 2]
    [padded_adj ⟨[⟨"C", 0, 4, false⟩], fun _ _ => 0⟩ 2] rfl 0 (by decide)
  simpa using this

/-- Row predicate of `load_data`: the row is kept when its SMILES parses and
the molecule has at most `max_num_atoms` atoms. -/
def load_data_keep (MolFromSmiles : String → Option Molecule) (max_num_atoms : Nat)
    (row : String × ℚ) : Bool :=
  match MolFromSmiles row.1 with
  | none => false
  | some m => decide (m.numAtoms ≤ max_num_atoms)

/-- The `for line in data` loop of `load_data`: skip a row whose SMILES does
not parse (`mol` is `None`) or whose molecule exceeds `max_num_atoms`,
otherwise append the SMILES and its free energy. -/
def load_data_loop (MolFromSmiles : String → Option Molecule)
    (rows : List (String × ℚ)) (max_num_atoms : Nat) : List String × List ℚ :=
  match rows with
  | [] => ([], [])
  | (smiles, freeE) :: rest =>
    match MolFromSmiles smiles with
    | none => load_data_loop MolFromSmiles rest max_num_atoms
    | some mol =>
      if max_num_atoms < mol.numAtoms then load_data_loop MolFromSmiles rest max_num_atoms
      else
        ((smiles :: (load_data_loop MolFromSmiles rest max_num_atoms).1),
         (freeE :: (load_data_loop MolFromSmiles rest max_num_atoms).2))

/-- Embedding of `load_data`: `rows` are the CSV records as
(smiles, free energy) pairs in file order, the header row included;
`next(data)` drops the header and the loop runs over the rest. -/
def load_data (MolFromSmiles : String → Option Molecule)
    (rows : List (String × ℚ)) (max_num_atoms : Nat) : List String × List ℚ :=
  load_data_loop MolFromSmiles rows.tail max_num_atoms

/-- C4: `load_data` returns exactly the (smiles, free energy) pairs of the
data rows, in input order, whose SMILES parses and whose molecule has at
most `max_num_atoms` atoms; unparseable rows are skipped silently with no
other effect. -/
theorem load_data_spec (MolFromSmiles : String → Option Molecule)
    (rows : List (String × ℚ)) (maxN : Nat) :
    load_data MolFromSmiles rows maxN
      = ((rows.tail.filter (load_data_keep MolFromSmiles maxN)).map Prod.fst,
         (rows.tail.filter (load_data_keep MolFromSmiles maxN)).map Prod.snd) := by
  unfold load_data
  induction rows.tail with
  | nil => rfl
  | cons r rest ih =>
    rcases r with ⟨smiles, freeE⟩
    rcases hp : MolFromSmiles smiles with _ | mol
    · have hk : load_data_keep MolFromSmiles maxN (smiles, freeE) = false := by
        simp [load_data_keep, hp]
      simp [load_data_loop, hp, hk, ih]
    · by_cases hn : maxN < mol.numAtoms
      · have hk : load_data_keep MolFromSmiles maxN (smiles, freeE) = false := by
          simp [load_data_keep, hp, Nat.not_le.mpr hn]
        simp [load_data_loop, hp, hn, hk, ih]
      · have hk : load_data_keep MolFromSmiles maxN (smiles, freeE) = true := by
          simp [load_data_keep, hp, Nat.le_of_not_lt hn]
        simp [load_data_loop, hp, hn, hk, ih]

set_option linter.unusedVariables false in
/-- Embedding of `Transfer.load_model`. The Python parameter is misspelled
(`def load_model(self, pretrian_dict)`), so the body's `pretrain_dict`
resolves to the module-level global of that name and the argument is never
read. The first argument below is that global, the second the model's state
dict, the third the argument actually passed at the call. For each model
key, the loaded dict takes the checkpoint value when the key is present and
keeps the model's value otherwise; `load_state_dict(..., strict=True)` then
installs it. -/
def load_model (pretrain_dict : List (String × ℚ)) (model_dict : List (String × ℚ))
    (pretrian_dict : List (String × ℚ)) : List (String × ℚ) :=
  model_dict.map (fun kv =>
    match pretrain_dict.lookup kv.1 with
    | some v => (kv.1, v)
    | none => kv)

/-- The claim's reading of `load_model` (second definition, following the
spec's words, for comparison): the values come from the dictionary actually
passed as the argument. -/
def load_model_claimed (model_dict : List (String × ℚ))
    (arg_dict : List (String × ℚ)) : List (String × ℚ) :=
  model_dict.map (fun kv =>
    match arg_dict.lookup kv.1 with
    | some v => (kv.1, v)
    | none => kv)

/-- C5: the code contradicts the claim: with the global checkpoint empty, a
model state `{k: 0}` and an argument dictionary `{k: 1}`, `load_model`
returns `{k: 0}` — the passed dictionary is ignored — while the claimed
behaviour returns `{k: 1}`. -/
theorem load_model_ignores_argument :
    load_model [] [("k", 0)] [("k", 1)] = [("k", 0)]
    ∧ load_model_claimed [("k", 0)] [("k", 1)] = [("k", 1)]
    ∧ load_model [] [("k", 0)] [("k", 1)] ≠ load_model_claimed [("k", 0)] [("k", 1)] := by
  refine ⟨rfl, rfl, ?_⟩
  decide

/-- State-dict keys of `Transfer`, structurally: the embedding, the
`W` ModuleList entries (indexed), and the head (`fc`, `linear1`,
`linear2`), each with a weight and a bias. -/
inductive ParamKey where
  | embedding_weight : ParamKey
  | embedding_bias : ParamKey
  | W_weight : Nat → ParamKey
  | W_bias : Nat → ParamKey
  | fc_weight : ParamKey
  | fc_bias : ParamKey
  | linear1_weight : ParamKey
  | linear1_bias : ParamKey
  | linear2_weight : ParamKey
  | linear2_bias : ParamKey
deriving DecidableEq, Repr, Inhabited

/-- One model parameter as `freeze` sees it: its state-dict key, its value
and its `requires_grad` flag. -/
structure Param where
  name : ParamKey
  value : ℚ
  requiresGrad : Bool
deriving DecidableEq, Repr, Inhabited

/-- State-dict keys of a `Transfer` model with `n_conv_layer` convolution
layers, in module order. -/
def transfer_param_names (n_conv_layer : Nat) : List ParamKey :=
  [ParamKey.embedding_weight, ParamKey.embedding_bias]
    ++ (List.range n_conv_layer).flatMap (fun i => [ParamKey.W_weight i, ParamKey.W_bias i])
    ++ [ParamKey.fc_weight, ParamKey.fc_bias, ParamKey.linear1_weight,
        ParamKey.linear1_bias, ParamKey.linear2_weight, ParamKey.linear2_bias]

/-- A freshly constructed model: every parameter trainable, values given by
the initializer. -/
def fresh_params (init : ParamKey → ℚ) (n_conv_layer : Nat) : List Param :=
  (transfer_param_names n_conv_layer).map (fun nm => ⟨nm, init nm, true⟩)

/-- Effect of `load_state_dict` after `load_model` on the parameter list:
values of keys present in the checkpoint are replaced, `requires_grad` is
untouched. -/
def load_model_params (pretrain_dict : List (ParamKey × ℚ)) (ps : List Param) :
    List Param :=
  ps.map (fun p =>
    match pretrain_dict.lookup p.name with
    | some v => { p with value := v }
    | none => p)

/-- Membership in `self.W`: exactly the parameters of the conv ModuleList. -/
def is_W_param : ParamKey → Bool
  | ParamKey.W_weight _ => true
  | ParamKey.W_bias _ => true
  | _ => false

/-- Embedding of `Transfer.freeze`: set `requires_grad = False` on every
parameter of `self.W` and touch nothing else. -/
def freeze (ps : List Param) : List Param :=
  ps.map (fun p => if is_W_param p.name then { p with requiresGrad := false } else p)

/-- The model state after `load_model` then `freeze`, starting from a fresh
model (the script's lines 180-183). -/
def transfer_pipeline (pretrain_dict : List (ParamKey × ℚ)) (init : ParamKey → ℚ)
    (n_conv_layer : Nat) : List Param :=
  freeze (load_model_params pretrain_dict (fresh_params init n_conv_layer))

/-- C6 counterexample: a checkpoint containing `embedding.weight` transfers
that parameter (its value becomes the checkpoint's 5), yet after `freeze` it
still has `requires_grad = True`, contradicting "every parameter that was
transferred from the pretrained checkpoint has requires_grad set to False". -/
theorem freeze_transferred_counterexample :
    (transfer_pipeline [(ParamKey.embedding_weight, 5)] (fun _ => 0) 3).find?
        (fun p => p.name == ParamKey.embedding_weight)
      = some ⟨ParamKey.embedding_weight, 5, true⟩ := by
  decide

theorem getD_map_lt {α β : Type} (f : α → β) (l : List α) (i : Nat) (h : i < l.length)
    (d : β) (d' : α) : (l.map f).getD i d = f (l.getD i d') := by
  simp [List.getD_eq_getElem?_getD, List.getElem?_map, List.getElem?_eq_getElem h]

/-- C6 amended: `freeze` disables gradients on exactly the conv ModuleList
(`self.W`) parameters, regardless of which keys the checkpoint transferred;
it preserves every parameter's key and value, and after the script's
load-then-freeze pipeline a parameter is trainable if and only if it is not
a `W` parameter (the head and the embedding stay trainable). -/
theorem freeze_spec (pretrain_dict : List (ParamKey × ℚ)) (init : ParamKey → ℚ)
    (n_conv_layer : Nat) (ps : List Param) :
    (freeze ps).length = ps.length
    ∧ (∀ i, i < ps.length →
        ((freeze ps).getD i default).name = (ps.getD i default).name
        ∧ ((freeze ps).getD i default).value = (ps.getD i default).value
        ∧ ((freeze ps).getD i default).requiresGrad
            = (if is_W_param (ps.getD i default).name then false
               else (ps.getD i default).requiresGrad))
    ∧ (∀ p ∈ transfer_pipeline pretrain_dict init n_conv_layer,
        p.requiresGrad = !(is_W_param p.name)) := by
  refine ⟨by simp [freeze], ?_, ?_⟩
  · intro i hi
    unfold freeze
    rw [getD_map_lt _ ps i hi default default]
    set q := ps.getD i default with hq
    by_cases hW : is_W_param q.name
    · simp [hW]
    · simp [hW]
  · intro p hp
    unfold transfer_pipeline freeze at hp
    rcases List.mem_map.mp hp with ⟨q, hq, rfl⟩
    unfold load_model_params at hq
    rcases List.mem_map.mp hq with ⟨r, hr, rfl⟩
    unfold fresh_params at hr
    rcases List.mem_map.mp hr with ⟨nm, hnm, rfl⟩
    cases hL : pretrain_dict.lookup nm <;> by_cases hW : is_W_param nm <;>
      simp [hL, hW]

/-- Witness for `freeze_spec`: freezing a one-parameter `W` list flips only
its gradient flag, and the embedding parameter of the empty-checkpoint
pipeline stays trainable. -/
theorem freeze_spec_witness :
    (((freeze [⟨ParamKey.W_weight 0, 1, true⟩]).getD 0 default).name
        = (([⟨ParamKey.W_weight 0, 1, true⟩] : List Param).getD 0 default).name
      ∧ ((freeze [⟨ParamKey.W_weight 0, 1, true⟩]).getD 0 default).value
        = (([⟨ParamKey.W_weight 0, 1, true⟩] : List Param).getD 0 default).value
      ∧ ((freeze [⟨ParamKey.W_weight 0, 1, true⟩]).getD 0 default).requiresGrad
        = (if is_W_param ((([⟨ParamKey.W_weight 0, 1, true⟩] : List Param).getD 0
              default).name) then false
           else (([⟨ParamKey.W_weight 0, 1, true⟩] : List Param).getD 0
              default).requiresGrad))
    ∧ (⟨ParamKey.embedding_weight, 0, true⟩ : Param).requiresGrad
        = !(is_W_param (⟨ParamKey.embedding_weight, 0, true⟩ : Param).name) :=
  ⟨(freeze_spec [] (fun _ => 0) 1 [⟨ParamKey.W_weight 0, 1, true⟩]).2.1 0 (by decide),
   (freeze_spec [] (fun _ => 0) 1 []).2.2 ⟨ParamKey.embedding_weight, 0, true⟩
     (by decide)⟩

/-- A dense matrix with `r` rows and `c` columns of rationals. -/
def Mat (r c : Nat) : Type := Fin r → Fin c → ℚ

/-- A PyTorch `nn.Linear(din, dout)` applied to a batch of row vectors:
`y = x Wᵀ + b`. -/
def linear_layer {r din dout : Nat} (W : Mat dout din) (b : Fin dout → ℚ)
    (x : Mat r din) : Mat r dout :=
  fun i j => (∑ k, x i k * W j k) + b j

/-- Embedding of `torch.matmul` on two matrices. -/
def matmul {r s t : Nat} (A : Mat r s) (B : Mat s t) : Mat r t :=
  fun i j => ∑ k, A i k * B k j

/-- Embedding of `nn.ReLU`, applied entrywise. -/
def relu_mat {r c : Nat} (x : Mat r c) : Mat r c :=
  fun i j => max 0 (x i j)

/-- Embedding of `retval.mean(1)`: the mean over the atom dimension. -/
def mean_atoms {r c : Nat} (x : Mat r c) : Fin c → ℚ :=
  fun j => (∑ i, x i j) / (r : ℚ)

/-- Embedding of `nn.Linear` applied to a single vector. -/
def vec_linear {din dout : Nat} (W : Mat dout din) (b : Fin dout → ℚ)
    (v : Fin din → ℚ) : Fin dout → ℚ :=
  fun j => (∑ k, v k * W j k) + b j

/-- The parameters of `Transfer.__init__`: the embedding `Linear(16,
n_channel)`, the `W` ModuleList of `Linear(n_channel, n_channel)` layers
(`n_conv_layer` is the list's length), and the head `fc : Linear(n_channel,
1024)`, `linear1 : Linear(1024, 1024)`, `linear2 : Linear(1024, d_out)`. -/
structure TransferParams (n_channel d_out : Nat) where
  embedding_w : Mat n_channel 16
  embedding_b : Fin n_channel → ℚ
  W : List (Mat n_channel n_channel × (Fin n_channel → ℚ))
  fc_w : Mat 1024 n_channel
  fc_b : Fin 1024 → ℚ
  linear1_w : Mat 1024 1024
  linear1_b : Fin 1024 → ℚ
  linear2_w : Mat d_out 1024
  linear2_b : Fin d_out → ℚ

/-- Embedding of `Transfer.forward` for one molecule: `sigmoid` abstracts
`torch.sigmoid`, `x` is the feature matrix, `A` the padded adjacency. The
loop over `self.W` is the foldl of linear transform, `matmul(A, ·)` and
`ReLU`; then mean over atoms, `fc`, sigmoid, `linear1`, `relu`, `linear2`. -/
def Transfer_forward (sigmoid : ℚ → ℚ) {n_channel d_out a : Nat}
    (p : TransferParams n_channel d_out) (x : Mat a 16) (A : Mat a a) :
    Fin d_out → ℚ :=
  let retval := x
  let retval := linear_layer p.embedding_w p.embedding_b retval
  let retval := p.W.foldl (fun r wb => relu_mat (matmul A (linear_layer wb.1 wb.2 r))) retval
  let v := mean_atoms retval
  let v := vec_linear p.fc_w p.fc_b v
  let v := fun j => sigmoid (v j)
  let v := vec_linear p.linear1_w p.linear1_b v
  let v := fun j => max 0 (v j)
  vec_linear p.linear2_w p.linear2_b v

/-- The spec's description of the convolution stack (second definition,
following the spec's words): for each layer, a per-atom linear transform,
adjacency-weighted aggregation, then the nonlinearity, applied in order. -/
def spec_conv_layers {n_channel a : Nat} (A : Mat a a)
    (convs : List (Mat n_channel n_channel × (Fin n_channel → ℚ)))
    (h : Mat a n_channel) : Mat a n_channel :=
  match convs with
  | [] => h
  | wb :: rest => spec_conv_layers A rest (relu_mat (matmul A (linear_layer wb.1 wb.2 h)))

/-- The spec's description of the feed-forward head: `fc`, sigmoid,
`linear1`, ReLU, `linear2`. -/
def spec_head (sigmoid : ℚ → ℚ) {n_channel d_out : Nat}
    (p : TransferParams n_channel d_out) (v : Fin n_channel → ℚ) : Fin d_out → ℚ :=
  vec_linear p.linear2_w p.linear2_b
    (fun j => max 0 (vec_linear p.linear1_w p.linear1_b
      (fun j2 => sigmoid (vec_linear p.fc_w p.fc_b v j2)) j))

theorem foldl_conv_eq_spec {n_channel a : Nat} (A : Mat a a)
    (convs : List (Mat n_channel n_channel × (Fin n_channel → ℚ)))
    (h : Mat a n_channel) :
    convs.foldl (fun r wb => relu_mat (matmul A (linear_layer wb.1 wb.2 r))) h
      = spec_conv_layers A convs h := by
  induction convs generalizing h with
  | nil => rfl
  | cons wb rest ih =>
    rw [List.foldl_cons]
    exact ih (relu_mat (matmul A (linear_layer wb.1 wb.2 h)))

/-- C7: for a `d_out = 1` model, `Transfer.forward` is exactly the spec's
composition: embedding, then the `n_conv_layer` stages of per-atom linear
transform, adjacency-weighted aggregation and nonlinearity, then the mean
over atoms, then the `fc`-sigmoid-`linear1`-ReLU-`linear2` head producing a
single scalar per molecule. -/
theorem Transfer_forward_spec (sigmoid : ℚ → ℚ) {n_channel a : Nat}
    (p : TransferParams n_channel 1) (x : Mat a 16) (A : Mat a a) :
    Transfer_forward sigmoid p x A
      = spec_head sigmoid p
          (mean_atoms (spec_conv_layers A p.W
            (linear_layer p.embedding_w p.embedding_b x))) := by
  unfold Transfer_forward spec_head
  dsimp only
  rw [foldl_conv_eq_spec]
